import Mathlib

/-!
A shallow embedding of `data2.py` (the mulisera data-preparation module),
together with proofs about its behaviour.

Conventions of the embedding:
* Python 2 byte strings are `List Nat` (byte values); decoded text is again a
  list of code points.
* numpy arrays are Lean lists; `np.repeat(_, 5, axis=0)` is `npRepeat5`;
  numpy fancy indexing with a bounds check is `npIndex`.
* File contents and random draws (`np.random.shuffle`, `random.choice`, the
  shuffling done by a torch `DataLoader`) are supplied as explicit oracle
  parameters.
* Python exceptions are values of `PyError`; fallible operations return
  `Option` or `Except PyError`.

Note on module-level names: `data2.py` uses the names `torch`, `random` and
`vocab` without binding them (only `torch.utils.data` members and
`Vocabulary` are imported).  The embedding models the evidently intended
bindings (the torch library, the `random` module, `self.vocab`), and the
genuine logic errors that remain even under those bindings are recorded by
the theorems about `DatasetCollection.next` and `read_m30K` below.
-/

inductive PyError where
  | stopIteration
  | typeError
  | keyError
  | indexError
  | valueError
  | nameError
  | notImplementedError
deriving DecidableEq, Repr

/-- Modelled from the spec: the `Vocabulary` wrapper imported from the
module `vocab`, whose file `vocab.py` is not among the source files.  The
spec says only that the code "builds a token vocabulary"; we model the
wrapper as an insertion-ordered collection of distinct words, where
`add_word` is a no-op on a word that is already present. -/
structure Vocabulary where
  words : List String
deriving DecidableEq, Repr

def Vocabulary.empty : Vocabulary := ⟨[]⟩

def Vocabulary.add_word (v : Vocabulary) (w : String) : Vocabulary :=
  if w ∈ v.words then v else ⟨v.words ++ [w]⟩

/-- The `Counter` state after `for caption in captions: counter.update(caption)`
(data2.py lines 18–20): the count of `w` is its total number of occurrences
over all captions. -/
def counterOf (captions : List (List String)) (w : String) : Nat :=
  captions.foldl (fun n caption => n + caption.count w) 0

/-- `build_vocabulary` (data2.py lines 13–39).  `counter.items()` enumerates
the distinct words of the captions (the enumeration order is irrelevant to
the theorems below, which only concern membership); the `pickle` dump of the
result is omitted as it does not affect the returned value.  The `threshold`
parameter defaults to `4` in the source; callers inside the module use the
default. -/
def build_vocabulary (captions : List (List String)) (threshold : Nat) : Vocabulary :=
  let words := (captions.flatten.dedup).filter (fun word => threshold ≤ counterOf captions word)
  let v := (((Vocabulary.empty.add_word "<pad>").add_word "<start>").add_word "<end>").add_word "<unk>"
  words.foldl Vocabulary.add_word v

theorem counterOf_go (captions : List (List String)) (w : String) :
    ∀ n : Nat, captions.foldl (fun n caption => n + caption.count w) n
      = n + (captions.flatten).count w := by
  induction captions with
  | nil => intro n; simp
  | cons c t ih =>
    intro n
    simp [List.foldl_cons, ih, List.count_append, Nat.add_assoc]

theorem counterOf_eq_count_join (captions : List (List String)) (w : String) :
    counterOf captions w = (captions.flatten).count w := by
  have h := counterOf_go captions w 0
  simpa [counterOf] using h

theorem mem_add_word {v : Vocabulary} {w u : String} :
    u ∈ (v.add_word w).words ↔ u ∈ v.words ∨ u = w := by
  unfold Vocabulary.add_word
  by_cases h : w ∈ v.words
  · simp only [if_pos h]
    exact ⟨Or.inl, fun hc => hc.elim id (fun e => e ▸ h)⟩
  · simp [if_neg h]

theorem add_word_words_append (v : Vocabulary) (w : String) :
    ∃ u, (v.add_word w).words = v.words ++ u := by
  unfold Vocabulary.add_word
  by_cases h : w ∈ v.words
  · exact ⟨[], by simp [if_pos h]⟩
  · exact ⟨[w], by simp [if_neg h]⟩

theorem mem_foldl_add_word (l : List String) (v : Vocabulary) (u : String) :
    u ∈ (l.foldl Vocabulary.add_word v).words ↔ u ∈ v.words ∨ u ∈ l := by
  induction l generalizing v with
  | nil => simp
  | cons w t ih =>
    rw [List.foldl_cons, ih, mem_add_word]
    simp [or_assoc]

theorem foldl_add_word_words_append (l : List String) (v : Vocabulary) :
    ∃ u, (l.foldl Vocabulary.add_word v).words = v.words ++ u := by
  induction l generalizing v with
  | nil => exact ⟨[], by simp⟩
  | cons w t ih =>
    obtain ⟨u1, h1⟩ := add_word_words_append v w
    obtain ⟨u2, h2⟩ := ih (v.add_word w)
    exact ⟨u1 ++ u2, by rw [List.foldl_cons, h2, h1, List.append_assoc]⟩

/-- **C1.** For every list of tokenized captions and every threshold `t`,
`build_vocabulary` returns a vocabulary that contains the four special
tokens `<pad>`, `<start>`, `<end>`, `<unk>` (added first, in that order)
and, besides them, exactly those words of the captions whose total
occurrence count over all captions is at least `t`.  (For `t ≥ 1`, and in
particular for the default `t = 4`, the conjunct `w ∈ captions.flatten` is
implied by `t ≤ counterOf captions w`.) -/
theorem c1_build_vocabulary (captions : List (List String)) (threshold : Nat) :
    (build_vocabulary captions threshold).words.take 4
        = ["<pad>", "<start>", "<end>", "<unk>"] ∧
    ∀ w : String, w ∉ ["<pad>", "<start>", "<end>", "<unk>"] →
      (w ∈ (build_vocabulary captions threshold).words ↔
        threshold ≤ counterOf captions w ∧ w ∈ captions.flatten) := by
  have hinit :
      ((((Vocabulary.empty.add_word "<pad>").add_word "<start>").add_word "<end>").add_word
        "<unk>").words = ["<pad>", "<start>", "<end>", "<unk>"] := by decide
  constructor
  · obtain ⟨u, hu⟩ := foldl_add_word_words_append
      ((captions.flatten.dedup).filter (fun word => threshold ≤ counterOf captions word))
      ((((Vocabulary.empty.add_word "<pad>").add_word "<start>").add_word "<end>").add_word
        "<unk>")
    rw [build_vocabulary, hu, hinit]
    rfl
  · intro w hw
    rw [build_vocabulary, mem_foldl_add_word, hinit]
    constructor
    · intro h
      rcases h with h | h
      · exact absurd h hw
      · rw [List.mem_filter] at h
        refine ⟨by simpa using h.2, List.mem_dedup.mp h.1⟩
    · intro h
      refine Or.inr ?_
      rw [List.mem_filter]
      exact ⟨List.mem_dedup.mpr h.2, by simpa using h.1⟩

theorem c1_build_vocabulary_witness :
    "cat" ∈ (build_vocabulary [["cat", "cat"], ["cat", "cat", "dog"]] 4).words ∧
    "dog" ∉ (build_vocabulary [["cat", "cat"], ["cat", "cat", "dog"]] 4).words := by
  have h := c1_build_vocabulary [["cat", "cat"], ["cat", "cat", "dog"]] 4
  constructor
  · exact (h.2 "cat" (by decide)).mpr (by decide)
  · intro hmem
    have hc := (h.2 "dog" (by decide)).mp hmem
    exact absurd hc.1 (by decide)

/-! ### `tokenize` (data2.py lines 72–81)

Python 2 byte strings are `List Nat`.  `re.sub(r'([^\s\w]|_)+', '', s)`
deletes every byte that is neither whitespace nor a word character, and
every underscore (the default Python 2 `\s` is `[ \t\n\r\f\v]` and `\w` is
`[0-9A-Za-z_]`).  `.lower()` lowercases the ASCII letters, and
`.decode('utf-8')` is a strict UTF-8 decoder returning code points
(raising `UnicodeDecodeError`, modelled as `none`, on invalid input).
`nltk.tokenize.word_tokenize` is an external total function, supplied as
the parameter `wt`. -/

def isSpaceByte (b : Nat) : Bool := b == 32 || (9 ≤ b && b ≤ 13)

def isWordByte (b : Nat) : Bool :=
  (48 ≤ b && b ≤ 57) || (65 ≤ b && b ≤ 90) || (97 ≤ b && b ≤ 122) || b == 95

/-- `re.sub(r'([^\s\w]|_)+', '', s)`: keep exactly the bytes that are
whitespace or word characters other than `_` (byte 95). -/
def stripNonAlnum (s : List Nat) : List Nat :=
  s.filter (fun b => (isSpaceByte b || isWordByte b) && b != 95)

/-- Python 2 `str.lower()` under the default locale: map `A`–`Z` to
`a`–`z`, leave every other byte alone. -/
def lowerByte (b : Nat) : Nat := if 65 ≤ b ∧ b ≤ 90 then b + 32 else b

def lowerStr (s : List Nat) : List Nat := s.map lowerByte

def isContByte (b : Nat) : Bool := 128 ≤ b && b ≤ 191

/-- Strict UTF-8 decoding of a byte list into code points, as performed by
Python 2 `str.decode('utf-8')`; `fuel` bounds the recursion (each step
consumes at least one byte, so `fuel = length` suffices). -/
def utf8DecodeGo : Nat → List Nat → Option (List Nat)
  | _, [] => some []
  | 0, _ :: _ => none
  | fuel + 1, b :: rest =>
    if b < 128 then
      (utf8DecodeGo fuel rest).map (fun cs => b :: cs)
    else if b < 194 then none
    else if b < 224 then
      match rest with
      | c1 :: rest1 =>
        if isContByte c1 then
          (utf8DecodeGo fuel rest1).map (fun cs => ((b - 192) * 64 + (c1 - 128)) :: cs)
        else none
      | [] => none
    else if b < 240 then
      match rest with
      | c1 :: c2 :: rest2 =>
        if (if b = 224 then 160 ≤ c1 && c1 ≤ 191
            else if b = 237 then 128 ≤ c1 && c1 ≤ 159
            else isContByte c1) && isContByte c2 then
          (utf8DecodeGo fuel rest2).map
            (fun cs => ((b - 224) * 4096 + (c1 - 128) * 64 + (c2 - 128)) :: cs)
        else none
      | _ => none
    else if b < 245 then
      match rest with
      | c1 :: c2 :: c3 :: rest3 =>
        if (if b = 240 then 144 ≤ c1 && c1 ≤ 191
            else if b = 244 then 128 ≤ c1 && c1 ≤ 143
            else isContByte c1) && isContByte c2 && isContByte c3 then
          (utf8DecodeGo fuel rest3).map
            (fun cs =>
              ((b - 240) * 262144 + (c1 - 128) * 4096 + (c2 - 128) * 64 + (c3 - 128)) :: cs)
        else none
      | _ => none
    else none

def utf8Decode (s : List Nat) : Option (List Nat) := utf8DecodeGo s.length s

/-- `tokenize` (data2.py lines 72–81): strip, lowercase, decode as UTF-8,
then apply `nltk.tokenize.word_tokenize` (the oracle `wt`).  `none` models
an uncaught `UnicodeDecodeError`. -/
def tokenize (wt : List Nat → List (List Nat)) (s : List Nat) :
    Option (List (List Nat)) :=
  match utf8Decode (lowerStr (stripNonAlnum s)) with
  | some u => some (wt u)
  | none => none

theorem utf8DecodeGo_ascii (l : List Nat) (h : ∀ b ∈ l, b < 128) :
    utf8DecodeGo l.length l = some l := by
  induction l with
  | nil => rfl
  | cons b rest ih =>
    have hb : b < 128 := h b (List.mem_cons_self b rest)
    have hrest : ∀ x ∈ rest, x < 128 := fun x hx => h x (List.mem_cons_of_mem b hx)
    simp [utf8DecodeGo, hb, ih hrest]

theorem stripNonAlnum_lt_128 (s : List Nat) : ∀ b ∈ stripNonAlnum s, b < 128 := by
  intro b hb
  rw [stripNonAlnum, List.mem_filter] at hb
  have h := hb.2
  simp only [Bool.and_eq_true, Bool.or_eq_true, isSpaceByte, isWordByte,
    beq_iff_eq, decide_eq_true_eq] at h
  omega

theorem lowerStr_lt_128 (s : List Nat) (h : ∀ b ∈ s, b < 128) :
    ∀ b ∈ lowerStr s, b < 128 := by
  intro b hb
  rw [lowerStr, List.mem_map] at hb
  obtain ⟨c, hc, rfl⟩ := hb
  have := h c hc
  unfold lowerByte
  split <;> omega

/-- **C5.** For every byte string `s` (and every total NLTK tokenizer
`wt`), `tokenize` returns the token list obtained by first deleting every
character that is neither whitespace nor a word character (and every
underscore), then lowercasing, then applying NLTK word tokenization; in
particular, the UTF-8 decode never fails (the stripped string is pure
ASCII), so `tokenize` succeeds on every input. -/
theorem c5_tokenize (wt : List Nat → List (List Nat)) (s : List Nat) :
    tokenize wt s = some (wt (lowerStr (stripNonAlnum s))) := by
  have hascii : ∀ b ∈ lowerStr (stripNonAlnum s), b < 128 :=
    lowerStr_lt_128 _ (stripNonAlnum_lt_128 s)
  have hdec : utf8Decode (lowerStr (stripNonAlnum s))
      = some (lowerStr (stripNonAlnum s)) :=
    utf8DecodeGo_ascii _ hascii
  rw [tokenize, hdec]

/-! ### `collate_fn` (data2.py lines 42–68)

A data element is an `(image, caption, id, img_id)` tuple as produced by
`ImageCaptionDataset.__getitem__`; caption tensors are lists of token
indices.  `data.sort(key=lambda x: len(x[1]), reverse=True)` is Python's
stable sort by non-increasing caption length, modelled by
`List.insertionSort` with the relation `capRel` (which places an element
before another exactly when Python's sort would).  `torch.stack` of the
images is the list of images, `torch.zeros` plus row-assignment builds
each row as the caption followed by zero padding, and `max(lengths)` is
`pyMax`, which raises `ValueError` (modelled as `none`) on an empty
sequence.  The name `torch` itself is never bound by data2.py (line 7
imports only `DataLoader` and `Dataset`), so as written every call of
`collate_fn` dies before returning — `collate_fn_asWritten` below models
the module as it stands, while `collate_fn` models the body under the
evidently intended `import torch` binding. -/

structure CItem (V : Type) where
  image : V
  caption : List Nat
  id : Nat
  img_id : Nat
deriving DecidableEq, Repr

structure CBatch (V : Type) where
  images : List V
  targets : List (List Nat)
  lengths : List Nat
  ids : List Nat
deriving DecidableEq, Repr

def capLen {V : Type} (x : CItem V) : Nat := x.caption.length

def capRel {V : Type} (a b : CItem V) : Prop := capLen b ≤ capLen a

instance {V : Type} : DecidableRel (capRel (V := V)) := fun _ _ => Nat.decLe _ _

instance {V : Type} : IsTotal (CItem V) capRel := ⟨fun a b => le_total (capLen b) (capLen a)⟩

instance {V : Type} : IsTrans (CItem V) capRel := ⟨fun _ _ _ hab hbc => le_trans hbc hab⟩

/-- Python's stable `data.sort(key=lambda x: len(x[1]), reverse=True)`. -/
def sortData {V : Type} (data : List (CItem V)) : List (CItem V) :=
  List.insertionSort capRel data

/-- Python's built-in `max` on a list: `ValueError` (`none`) when empty. -/
def pyMax : List Nat → Option Nat
  | [] => none
  | x :: xs => some (xs.foldl max x)

/-- The body of `collate_fn` (lines 42–68) under the intended
`import torch` binding; see `collate_fn_asWritten` for the module as
written. -/
def collate_fn {V : Type} (data : List (CItem V)) : Option (CBatch V) :=
  match pyMax ((sortData data).map capLen) with
  | none => none
  | some maxLen =>
      some ⟨(sortData data).map CItem.image,
            (sortData data).map (fun x => x.caption ++ List.replicate (maxLen - capLen x) 0),
            (sortData data).map capLen,
            (sortData data).map CItem.id⟩

/-- `collate_fn` as data2.py stands: the name `torch` is unbound, so after
the line-55 sort succeeds, a non-empty batch raises `NameError` at
`torch.stack` (line 59), and an empty batch raises `ValueError` one line
earlier, unpacking four names from `zip(*data)` = `[]` (line 56); no call
ever returns a batch. -/
def collate_fn_asWritten {V : Type} (data : List (CItem V)) : Except PyError (CBatch V) :=
  match sortData data with
  | [] => .error .valueError
  | _ :: _ => .error .nameError

theorem le_foldl_max (xs : List Nat) : ∀ a : Nat, a ≤ xs.foldl max a := by
  induction xs with
  | nil => intro a; exact le_refl a
  | cons x t ih =>
    intro a
    exact le_trans (le_max_left a x) (ih (max a x))

theorem mem_le_foldl_max (xs : List Nat) : ∀ a y : Nat, y ∈ xs → y ≤ xs.foldl max a := by
  induction xs with
  | nil => intro a y hy; cases hy
  | cons x t ih =>
    intro a y hy
    rcases List.mem_cons.mp hy with rfl | hy
    · exact le_trans (le_max_right a y) (le_foldl_max t (max a y))
    · exact ih (max a x) y hy

theorem foldl_max_mem (xs : List Nat) : ∀ a : Nat, xs.foldl max a = a ∨ xs.foldl max a ∈ xs := by
  induction xs with
  | nil => intro a; exact Or.inl rfl
  | cons x t ih =>
    intro a
    rcases ih (max a x) with h | h
    · rcases max_choice a x with hm | hm
      · exact Or.inl (by rw [List.foldl_cons, h, hm])
      · exact Or.inr (by rw [List.foldl_cons, h, hm]; exact List.mem_cons_self x t)
    · exact Or.inr (List.mem_cons_of_mem x h)

/-- The behaviour the docstring of `collate_fn` (lines 43–53) describes,
proved of the intended-binding body: on a non-empty batch it would return
the entries sorted by non-increasing caption length (a stable permutation
of the input), a targets matrix with one row per entry, each row as wide
as the longest caption, row `i` the `i`-th sorted caption followed by zero
padding, and `lengths i` the length of the `i`-th sorted caption.  As
written the function never reaches a return — see
`c8_collate_fn_never_returns`. -/
theorem collate_fn_sorted_padded {V : Type} (data : List (CItem V)) (h : data ≠ []) :
    ∃ b : CBatch V, collate_fn data = some b ∧
      List.Perm (sortData data) data ∧
      List.Sorted capRel (sortData data) ∧
      b.images = (sortData data).map CItem.image ∧
      b.ids = (sortData data).map CItem.id ∧
      b.lengths = (sortData data).map capLen ∧
      b.targets.length = data.length ∧
      ∃ maxLen : Nat, pyMax ((sortData data).map capLen) = some maxLen ∧
        (∀ x ∈ data, capLen x ≤ maxLen) ∧
        maxLen ∈ data.map capLen ∧
        (∀ row ∈ b.targets, row.length = maxLen) ∧
        b.targets = (sortData data).map
          (fun x => x.caption ++ List.replicate (maxLen - capLen x) 0) := by
  have hperm : List.Perm (sortData data) data := List.perm_insertionSort capRel data
  have hsorted : List.Sorted capRel (sortData data) := List.sorted_insertionSort capRel data
  have hne : sortData data ≠ [] := by
    intro e0
    rw [e0] at hperm
    exact absurd hperm.symm.eq_nil h
  obtain ⟨hd, tl, e⟩ := List.exists_cons_of_ne_nil hne
  set maxLen := (tl.map capLen).foldl max (capLen hd) with hmax
  have hpy : pyMax ((sortData data).map capLen) = some maxLen := by
    rw [e]; rfl
  have hub : ∀ x ∈ data, capLen x ≤ maxLen := by
    intro x hx
    have hx2 : x ∈ sortData data := hperm.symm.subset hx
    rw [e] at hx2
    rcases List.mem_cons.mp hx2 with rfl | hx2
    · exact le_foldl_max _ _
    · exact mem_le_foldl_max _ _ _ (List.mem_map_of_mem capLen hx2)
  have hmem : maxLen ∈ data.map capLen := by
    have hmm : maxLen ∈ (sortData data).map capLen := by
      rw [e]
      rcases foldl_max_mem (tl.map capLen) (capLen hd) with h2 | h2
      · rw [List.map_cons, hmax, h2]; exact List.mem_cons_self _ _
      · rw [List.map_cons, hmax]; exact List.mem_cons_of_mem _ h2
    exact (hperm.map capLen).mem_iff.mp hmm
  refine ⟨⟨(sortData data).map CItem.image,
           (sortData data).map (fun x => x.caption ++ List.replicate (maxLen - capLen x) 0),
           (sortData data).map capLen,
           (sortData data).map CItem.id⟩, ?_, hperm, hsorted, rfl, rfl, rfl, ?_, maxLen,
         hpy, hub, hmem, ?_, rfl⟩
  · unfold collate_fn
    rw [hpy]
  · rw [List.length_map]
    exact hperm.length_eq
  · intro row hrow
    rw [List.mem_map] at hrow
    obtain ⟨x, hx, rfl⟩ := hrow
    have hxd : x ∈ data := hperm.subset hx
    rw [List.length_append, List.length_replicate]
    exact Nat.add_sub_cancel' (hub x hxd)

theorem collate_fn_sorted_padded_concrete :
    ([⟨1, [5], 0, 0⟩, ⟨2, [6, 7], 1, 1⟩] : List (CItem Nat)) ≠ [] ∧
    (collate_fn ([⟨1, [5], 0, 0⟩, ⟨2, [6, 7], 1, 1⟩] : List (CItem Nat))).isSome = true := by
  refine ⟨by decide, ?_⟩
  obtain ⟨b, hb, -⟩ := collate_fn_sorted_padded ([⟨1, [5], 0, 0⟩, ⟨2, [6, 7], 1, 1⟩] : List (CItem Nat))
    (by decide)
  rw [hb]
  rfl

/-- **C8 (failing case).** As data2.py stands, `collate_fn` never returns
the claimed batch: `torch` is unbound, so the concrete non-empty batch
below raises `NameError` at `torch.stack` and the empty batch raises
`ValueError` unpacking `zip(*data)`, while the claim (and the function's
own docstring) promises the sorted/padded batch — which, at the same
input, only the intended-binding body produces. -/
theorem c8_collate_fn_never_returns :
    collate_fn_asWritten ([⟨1, [5], 0, 0⟩, ⟨2, [6, 7], 1, 1⟩] : List (CItem Nat))
      = .error PyError.nameError ∧
    collate_fn_asWritten ([] : List (CItem Nat)) = .error PyError.valueError ∧
    collate_fn ([⟨1, [5], 0, 0⟩, ⟨2, [6, 7], 1, 1⟩] : List (CItem Nat))
      = some ⟨[2, 1], [[6, 7], [5, 0]], [2, 1], [1, 0]⟩ :=
  ⟨rfl, rfl, rfl⟩

/-! ### `ImageCaptionDataset`, `DataLoader` and `DatasetCollection`
(data2.py lines 182–255)

`ImageCaptionDataset` stores captions, tokenized captions, image vectors,
its length, and (when constructed without a `vocab` argument) a
vocabulary; when a vocabulary is passed, `self.vocab` is never assigned
(lines 194–195), which we model with `Option Vocabulary`.  `__getitem__`
pairs `self.images[index]` with the caption tensor
`[<start>] + tokens + [<end>]` mapped through the vocabulary — the source
writes the bare name `vocab`, read here as the evidently intended
`self.vocab`. -/

structure ICDataset (V : Type) where
  captions : List String
  tokenized_captions : List (List String)
  images : List V
  length : Nat
  vocab : Option Vocabulary
deriving DecidableEq, Repr

/-- Modelled from the spec: `Vocabulary.__call__` from the missing
`vocab.py` — look a word up, falling back to the index of `<unk>` for an
unknown word. -/
def vocabCall (v : Vocabulary) (w : String) : Nat :=
  if w ∈ v.words then v.words.indexOf w else v.words.indexOf "<unk>"

/-- `ImageCaptionDataset.__getitem__` (lines 197–205): returns
`(image, target, index, index)`. -/
def ICDataset.getItem {V : Type} (d : ICDataset V) (i : Nat) : Option (CItem V) :=
  match d.images.get? i, d.tokenized_captions.get? i, d.vocab with
  | some img, some toks, some v =>
      some ⟨img, vocabCall v "<start>" :: (toks.map (vocabCall v) ++ [vocabCall v "<end>"]), i, i⟩
  | _, _, _ => none

/-- Split a list into consecutive chunks of `bs` elements (the last chunk
may be shorter); `fuel` bounds the recursion, `fuel = length` suffices for
`bs ≥ 1`. -/
def chunkByGo {α : Type} (bs : Nat) : Nat → List α → List (List α)
  | _, [] => []
  | 0, _ :: _ => []
  | fuel + 1, x :: xs => (x :: xs).take bs :: chunkByGo bs fuel ((x :: xs).drop bs)

def chunkBy {α : Type} (bs : Nat) (l : List α) : List (List α) := chunkByGo bs l.length l

/-- Modelled from the torch library:
`DataLoader(dataset, batch_size, shuffle, pin_memory, collate_fn)`.  An
iteration pass visits the sample indices — a permutation `order` of
`range(len(dataset))`, supplied as an oracle, when `shuffle=True`, and
`range(len(dataset))` itself when `shuffle=False` — grouped into
consecutive chunks of `batch_size`, fetching each index through
`__getitem__` and passing each chunk to `collate`. -/
structure TorchDataLoader (V : Type) where
  dataset : ICDataset V
  batch_size : Nat
  shuffle : Bool
  pin_memory : Bool
  collate : List (CItem V) → Option (CBatch V)

def TorchDataLoader.serve {V : Type} (dl : TorchDataLoader V) (order : List Nat) :
    List (Option (CBatch V)) :=
  let idxs := if dl.shuffle then order else List.range dl.dataset.length
  (chunkBy dl.batch_size idxs).map (fun c => dl.collate (c.filterMap dl.dataset.getItem))

/-- Python dict assignment `d[k] = v` on a dict modelled as an
insertion-ordered association list. -/
def setKey {α : Type} (k : String) (v : α) : List (String × α) → List (String × α)
  | [] => [(k, v)]
  | (k2, v2) :: rest => if k2 = k then (k, v) :: rest else (k2, v2) :: setKey k v rest

/-- `DatasetCollection.__init__` (lines 212–215): `data_loaders` holds the
iterator of each training `DataLoader` (its list of remaining batches),
`data_sets` the training datasets, `val_loaders` the validation
`DataLoader` objects. -/
structure DatasetCollection (V : Type) where
  data_loaders : List (String × List (Option (CBatch V)))
  data_sets : List (String × ICDataset V)
  val_loaders : List (String × TorchDataLoader V)

def DatasetCollection.empty (V : Type) : DatasetCollection V := ⟨[], [], []⟩

/-- `add_trainset` (lines 217–224): build a shuffling `DataLoader` over
`dset` with the given batch size and `collate_fn`, store the dataset in
`data_sets` and `iter(data_loader)` — the loader's batch stream for the
drawn permutation `order` — in `data_loaders`. -/
def DatasetCollection.add_trainset {V : Type} (st : DatasetCollection V) (name : String)
    (dset : ICDataset V) (batch_size : Nat) (order : List Nat) : DatasetCollection V :=
  let data_loader : TorchDataLoader V := ⟨dset, batch_size, true, true, collate_fn⟩
  ⟨setKey name (data_loader.serve order) st.data_loaders,
   setKey name dset st.data_sets,
   st.val_loaders⟩

/-- `add_valset` (lines 226–232): store a non-shuffling `DataLoader` over
`dset` in `val_loaders`. -/
def DatasetCollection.add_valset {V : Type} (st : DatasetCollection V) (name : String)
    (dset : ICDataset V) (batch_size : Nat) : DatasetCollection V :=
  ⟨st.data_loaders, st.data_sets, setKey name ⟨dset, batch_size, false, true, collate_fn⟩ st.val_loaders⟩

/-- `compute_joint_vocab` (lines 234–240): concatenate the tokenized
captions of all stored (training) datasets, rebuild the vocabulary with the
default threshold 4, and assign it to every stored dataset. -/
def DatasetCollection.compute_joint_vocab {V : Type} (st : DatasetCollection V) :
    DatasetCollection V :=
  let caps := (st.data_sets.map (fun kv => kv.2.tokenized_captions)).flatten
  let vocab := build_vocabulary caps 4
  ⟨st.data_loaders,
   st.data_sets.map (fun kv =>
     (kv.1, ⟨kv.2.captions, kv.2.tokenized_captions, kv.2.images, kv.2.length, some vocab⟩)),
   st.val_loaders⟩

/-- Python 2 `next(x)` applied to an `ImageCaptionDataset`: the class
defines only `__getitem__` and `__len__`, no `next` method, so the built-in
raises `TypeError`. -/
def pyNextDataset {V : Type} (_d : ICDataset V) : Except PyError (Option (CBatch V)) :=
  .error .typeError

/-- `iter` applied to an iterator: an iterator's `__iter__` returns the
iterator itself, so an exhausted iterator stays exhausted. -/
def iterOfIterator {β : Type} (it : List β) : List β := it

/-- `DatasetCollection.next` (lines 245–255) after the random key `k` has
been drawn.  Line 248 binds `loader` to `self.data_sets[k]` — the
`ImageCaptionDataset`, not the stored loader iterator — so `next(loader)`
raises `TypeError`, which the `except StopIteration:` clause does not
catch.  In the except branch, `iter(self.data_loaders[k])` is `iter` of an
iterator (`iterOfIterator`), so the claimed re-initialisation returns the
same exhausted iterator and `next` on it re-raises `StopIteration`. -/
def DatasetCollection.next {V : Type} (st : DatasetCollection V) (k : String) :
    Except PyError (Option (CBatch V) × DatasetCollection V) :=
  match st.data_sets.lookup k with
  | none => .error .keyError
  | some ds =>
    match pyNextDataset ds with
    | .ok b => .ok (b, st)
    | .error .stopIteration =>
        match st.data_loaders.lookup k with
        | none => .error .keyError
        | some it =>
          match iterOfIterator it with
          | [] => .error .stopIteration
          | b :: rest => .ok (b, ⟨setKey k rest st.data_loaders, st.data_sets, st.val_loaders⟩)
    | .error e => .error e

/-- `random.choice(self.data_loaders.keys())` with random draw `r`: a
uniformly random element of the key list (`IndexError` on an empty
sequence).  (`random` is never imported by data2.py — the line as written
raises `NameError`; we model the evidently intended binding.) -/
def DatasetCollection.choice {V : Type} (st : DatasetCollection V) (r : Nat) : Option String :=
  let ks := st.data_loaders.map Prod.fst
  ks.get? (r % ks.length)

/-- One call of `DatasetCollection.next` with the random draw `r`. -/
def DatasetCollection.nextR {V : Type} (st : DatasetCollection V) (r : Nat) :
    Except PyError (Option (CBatch V) × DatasetCollection V) :=
  match st.choice r with
  | none => .error .indexError
  | some k => st.next k

/-- Successive calls of `DatasetCollection.next`, one per random draw,
recording the selected key and the outcome of each call (an uncaught
exception leaves the collection unchanged). -/
def DatasetCollection.run {V : Type} :
    DatasetCollection V → List Nat → List (Option String × Except PyError (Option (CBatch V)))
  | _, [] => []
  | st, r :: rs =>
    match st.nextR r with
    | .ok (b, st2) => (st.choice r, .ok b) :: st2.run rs
    | .error e => (st.choice r, .error e) :: st.run rs

theorem lookup_setKey {α : Type} (k : String) (v : α) (l : List (String × α)) :
    (setKey k v l).lookup k = some v := by
  induction l with
  | nil => simp [setKey, List.lookup]
  | cons kv rest ih =>
    obtain ⟨k2, v2⟩ := kv
    by_cases h : k2 = k
    · simp [setKey, h, List.lookup]
    · have hne : (k == k2) = false := by
        simp [beq_iff_eq]
        exact fun e => h e.symm
      simp [setKey, h, List.lookup, hne, ih]

theorem chunkByGo_flatten {α : Type} (bs : Nat) (hbs : 0 < bs) :
    ∀ (fuel : Nat) (l : List α), l.length ≤ fuel → (chunkByGo bs fuel l).flatten = l := by
  intro fuel
  induction fuel with
  | zero =>
    intro l hl
    have : l = [] := List.eq_nil_of_length_eq_zero (Nat.le_zero.mp hl)
    subst this
    rfl
  | succ n ih =>
    intro l hl
    match l with
    | [] => rfl
    | x :: xs =>
      have hd : ((x :: xs).drop bs).length ≤ n := by
        rw [List.length_drop, List.length_cons]
        simp only [List.length_cons] at hl
        omega
      calc (chunkByGo bs (n + 1) (x :: xs)).flatten
          = (x :: xs).take bs ++ (chunkByGo bs n ((x :: xs).drop bs)).flatten := by
            rw [chunkByGo, List.flatten_cons]
        _ = (x :: xs).take bs ++ (x :: xs).drop bs := by rw [ih _ hd]
        _ = x :: xs := List.take_append_drop bs (x :: xs)

theorem chunkBy_flatten {α : Type} (bs : Nat) (hbs : 0 < bs) (l : List α) :
    (chunkBy bs l).flatten = l :=
  chunkByGo_flatten bs hbs l.length l (le_refl _)

theorem chunkByGo_length_le {α : Type} (bs : Nat) :
    ∀ (fuel : Nat) (l : List α), ∀ c ∈ chunkByGo bs fuel l, c.length ≤ bs := by
  intro fuel
  induction fuel with
  | zero =>
    intro l c hc
    match l with
    | [] => cases hc
    | _ :: _ => cases hc
  | succ n ih =>
    intro l c hc
    match l with
    | [] => cases hc
    | x :: xs =>
      rw [chunkByGo] at hc
      rcases List.mem_cons.mp hc with rfl | hc
      · rw [List.length_take]
        exact min_le_left _ _
      · exact ih _ c hc

theorem chunkBy_length_le {α : Type} (bs : Nat) (l : List α) :
    ∀ c ∈ chunkBy bs l, c.length ≤ bs :=
  chunkByGo_length_le bs l.length l

/-- **C6.** `add_trainset` stores (the iterator of) a `DataLoader` with
`shuffle` enabled over the given dataset, with the given batch size and
`collate_fn`: its batch stream groups the random permutation `order` into
consecutive chunks of at most `batch_size` indices and collates each chunk
with `collate_fn`.  `add_valset` stores a `DataLoader` with `shuffle`
disabled, the given batch size and `collate_fn`, whose batch stream visits
`range(len(dataset))` — the dataset's original order — independently of
any drawn permutation; chunking loses no index and preserves order. -/
theorem c6_add_trainset_add_valset {V : Type} (st : DatasetCollection V) (name : String)
    (dset : ICDataset V) (batch_size : Nat) (order : List Nat) (h : 0 < batch_size) :
    ((st.add_trainset name dset batch_size order).data_loaders.lookup name
        = some (TorchDataLoader.serve ⟨dset, batch_size, true, true, collate_fn⟩ order)) ∧
    ((st.add_trainset name dset batch_size order).data_sets.lookup name = some dset) ∧
    (TorchDataLoader.serve ⟨dset, batch_size, true, true, collate_fn⟩ order
        = (chunkBy batch_size order).map (fun c => collate_fn (c.filterMap dset.getItem))) ∧
    ((st.add_valset name dset batch_size).val_loaders.lookup name
        = some ⟨dset, batch_size, false, true, collate_fn⟩) ∧
    (∀ order2 : List Nat,
      TorchDataLoader.serve ⟨dset, batch_size, false, true, collate_fn⟩ order2
        = (chunkBy batch_size (List.range dset.length)).map
            (fun c => collate_fn (c.filterMap dset.getItem))) ∧
    (chunkBy batch_size order).flatten = order ∧
    (chunkBy batch_size (List.range dset.length)).flatten = List.range dset.length ∧
    (∀ c ∈ chunkBy batch_size order, c.length ≤ batch_size) ∧
    (∀ c ∈ chunkBy batch_size (List.range dset.length), c.length ≤ batch_size) := by
  refine ⟨?_, ?_, rfl, ?_, fun order2 => rfl, chunkBy_flatten _ h _, chunkBy_flatten _ h _,
    chunkBy_length_le _ _, chunkBy_length_le _ _⟩
  · exact lookup_setKey name _ st.data_loaders
  · exact lookup_setKey name dset st.data_sets
  · exact lookup_setKey name _ st.val_loaders

/-- Concrete dataset used by the witnesses below. -/
def dsW : ICDataset Nat :=
  ⟨["x y"], [["x", "y"]], [7], 1, none⟩

theorem c6_add_trainset_add_valset_witness :
    0 < 2 ∧
    (((DatasetCollection.empty Nat).add_trainset "a" dsW 2 [0]).data_loaders.lookup "a"
      = some (TorchDataLoader.serve ⟨dsW, 2, true, true, collate_fn⟩ [0])) := by
  have h := c6_add_trainset_add_valset (DatasetCollection.empty Nat) "a" dsW 2 [0] (by decide)
  exact ⟨by decide, h.1⟩

/-- **C7.** `compute_joint_vocab` gives every training dataset in the
collection one and the same vocabulary — `build_vocabulary` (with the
default threshold 4) of the concatenation of all training datasets'
tokenized captions — and changes nothing else: the captions, tokenized
captions, images and length of every dataset, and the training and
validation loaders, are untouched. -/
theorem c7_compute_joint_vocab {V : Type} (st : DatasetCollection V) :
    (∀ kv ∈ st.compute_joint_vocab.data_sets,
      kv.2.vocab = some (build_vocabulary
        ((st.data_sets.map (fun kv2 => kv2.2.tokenized_captions)).flatten) 4)) ∧
    st.compute_joint_vocab.data_sets.map
        (fun kv => (kv.1, kv.2.captions, kv.2.tokenized_captions, kv.2.images, kv.2.length))
      = st.data_sets.map
        (fun kv => (kv.1, kv.2.captions, kv.2.tokenized_captions, kv.2.images, kv.2.length)) ∧
    st.compute_joint_vocab.data_loaders = st.data_loaders ∧
    st.compute_joint_vocab.val_loaders = st.val_loaders := by
  refine ⟨?_, ?_, rfl, rfl⟩
  · intro kv hkv
    rw [DatasetCollection.compute_joint_vocab] at hkv
    simp only [List.mem_map] at hkv
    obtain ⟨kv2, _, rfl⟩ := hkv
    rfl
  · rw [DatasetCollection.compute_joint_vocab]
    rw [List.map_map]
    rfl

def stW : DatasetCollection Nat := ⟨[], [("a", dsW)], []⟩

theorem c7_compute_joint_vocab_witness :
    (("a", (⟨["x y"], [["x", "y"]], [7], 1,
        some (build_vocabulary [["x", "y"]] 4)⟩ : ICDataset Nat))
      ∈ stW.compute_joint_vocab.data_sets) ∧
    (some (build_vocabulary [["x", "y"]] 4) : Option Vocabulary)
      = some (build_vocabulary ((stW.data_sets.map (fun kv2 => kv2.2.tokenized_captions)).flatten) 4) := by
  constructor
  · decide
  · exact ((c7_compute_joint_vocab stW).1
      ("a", ⟨["x y"], [["x", "y"]], [7], 1, some (build_vocabulary [["x", "y"]] 4)⟩)
      (by decide)).symm


theorem next_always_error {V : Type} (st : DatasetCollection V) (k : String) :
    ∃ e, st.next k = .error e := by
  unfold DatasetCollection.next
  cases h : st.data_sets.lookup k with
  | none => exact ⟨.keyError, rfl⟩
  | some ds => exact ⟨.typeError, rfl⟩

theorem nextR_always_error {V : Type} (st : DatasetCollection V) (r : Nat) :
    ∃ e, st.nextR r = .error e := by
  unfold DatasetCollection.nextR
  cases h : st.choice r with
  | none => exact ⟨.indexError, rfl⟩
  | some k =>
    obtain ⟨e, he⟩ := next_always_error st k
    exact ⟨e, he⟩

/-- **C2 (amended).** Successive calls to `DatasetCollection.next` do not
visit the registered loaders round-robin: each call picks its data loader
key by `random.choice` over the registered keys — a function of that
call's random draw alone, independent of the call history — so a window
of `k` consecutive calls need not yield a batch from each dataset.
(Moreover, as written, every call raises an exception — see `c3`.) -/
theorem c2_next_random_choice {V : Type} (st : DatasetCollection V) (draws : List Nat) :
    (st.run draws).map Prod.fst = draws.map st.choice ∧
    ∀ p ∈ st.run draws, ∃ e, p.2 = Except.error e := by
  induction draws with
  | nil => exact ⟨rfl, fun p hp => absurd hp (List.not_mem_nil p)⟩
  | cons r rs ih =>
    obtain ⟨e, he⟩ := nextR_always_error st r
    have hrun : st.run (r :: rs) = (st.choice r, .error e) :: st.run rs := by
      rw [DatasetCollection.run, he]
    constructor
    · rw [hrun, List.map_cons, List.map_cons, ih.1]
    · intro p hp
      rw [hrun] at hp
      rcases List.mem_cons.mp hp with rfl | hp
      · exact ⟨e, rfl⟩
      · exact ih.2 p hp

def dsW2 : ICDataset Nat :=
  ⟨["z w"], [["z", "w"]], [9], 1, none⟩

/-- A collection with two registered training sets, each with a fresh
one-batch loader iterator. -/
def stC2 : DatasetCollection Nat :=
  ⟨[("a", [some ⟨[7], [[1, 2]], [2], [0]⟩]), ("b", [some ⟨[9], [[3, 4]], [2], [0]⟩])],
   [("a", dsW), ("b", dsW2)],
   []⟩

theorem c2_next_random_choice_witness :
    (stC2.run [0, 0]).map Prod.fst = [0, 0].map stC2.choice :=
  (c2_next_random_choice stC2 [0, 0]).1

def isOkExcept {ε α : Type} : Except ε α → Bool
  | .ok _ => true
  | .error _ => false

/-- A window of the iteration trace yields a batch from the dataset named
`k` if some call in it selected `k` and returned a batch. -/
def yieldsBatchFrom {V : Type}
    (trace : List (Option String × Except PyError (Option (CBatch V)))) (k : String) : Prop :=
  ∃ p ∈ trace, p.1 = some k ∧ isOkExcept p.2 = true

instance {V : Type}
    (trace : List (Option String × Except PyError (Option (CBatch V)))) (k : String) :
    Decidable (yieldsBatchFrom trace k) :=
  List.decidableBEx _ trace

/-- **C2 (counterexample).** With two registered datasets, the first
window of two consecutive calls — under the random draws `[0, 0]`, both of
which select dataset `"a"` — does not yield one batch from each dataset:
it yields no batch from `"b"` at all (indeed no batch whatsoever), even
though both loader iterators hold a fresh batch. -/
theorem c2_counterexample :
    ¬ (yieldsBatchFrom (stC2.run [0, 0]) "a" ∧ yieldsBatchFrom (stC2.run [0, 0]) "b") := by
  decide

/-- **C3.** Whenever the drawn key `k` names a registered training set,
`DatasetCollection.next` raises `TypeError` — it never returns a batch:
line 248 passes the `ImageCaptionDataset` (not the stored loader iterator)
to `next()`, and only `StopIteration` is caught. -/
theorem c3_next_typeError {V : Type} (st : DatasetCollection V) (k : String)
    (ds : ICDataset V) (h : st.data_sets.lookup k = some ds) :
    st.next k = .error PyError.typeError := by
  unfold DatasetCollection.next
  rw [h]
  rfl

theorem c3_next_typeError_witness :
    stC2.data_sets.lookup "a" = some dsW ∧
    stC2.next "a" = .error PyError.typeError :=
  ⟨by decide, c3_next_typeError stC2 "a" dsW (by decide)⟩

/-! ### `read_m30K`, `read_coco`, `load_data` (data2.py lines 83–178)

File contents are supplied by environment records: `image_vectors split` is
the numpy array loaded from `{split}-resnet50-avgpool.npy`, and the caption
files are given already split on newlines with the trailing empty line
dropped (the source's `f.read().split('\n')` followed by `t[:-1]`).
`np.repeat(_, 5, axis=0)` repeats each row five times consecutively
(`npRepeat5`); numpy fancy indexing `arr[inds]` is `npIndex`, which raises
`IndexError` (`none`) on an out-of-range index; `np.random.shuffle` of
`np.arange(n - 1)` is the oracle `perm`, a permutation of `range (n - 1)`.
The unimplemented `lang_prefix` flag (its branch body is `pass`) is
accepted and ignored. -/

def npRepeat5 {V : Type} (l : List V) : List V := (l.map (List.replicate 5)).flatten

def npIndex {α : Type} : List α → List Nat → Option (List α)
  | _, [] => some []
  | l, i :: is =>
    match l[i]?, npIndex l is with
    | some a, some rest => some (a :: rest)
    | _, _ => none

structure M30KEnv (V : Type) where
  image_vectors : String → List V
  capFile : String → String → Nat → List String

/-- `read_m30K` (lines 83–114): map split `test` to `test_2016`; for
`i in range(1, 6)` read the caption file `{split}.lc.norm.tok.{i}.{lang}`
(`env.capFile split lang i`); the returned captions are the concatenation
of the five files in file order, and the returned images repeat each image
vector five times. -/
def read_m30K {V : Type} (env : M30KEnv V) (lang split : String)
    ( lang_prefix : Bool) : List V × List String :=
  let split2 := if split = "test" then "test_2016" else split
  let image_vectors := env.image_vectors split2
  let caps := (List.range 5).map (fun i => env.capFile split2 lang (i + 1))
  let captions := caps.flatten
  (npRepeat5 image_vectors, captions)

structure CocoEnv (V : Type) where
  image_vectors : String → List V
  capLines : String → List String

/-- `y.split('\t')[0]`: the text before the first tab of a caption line. -/
def firstField (y : String) : String := (y.splitOn "\t").headD ""

/-- `read_coco` (lines 117–158): captions are the first tab-field of each
line of `{split}_captions.txt`; when `downsample` is truthy (non-zero),
`np.arange(n - 1)` is shuffled (the oracle `perm`) and the first
`downsample` entries select the kept image vectors, whose caption blocks
`np.arange(x*5, x*5+5)` select the kept captions; the kept (or all) image
vectors are then each repeated five times. -/
def read_coco {V : Type} (env : CocoEnv V) (split : String) ( lang_prefix : Bool)
    (downsample : Nat) (perm : List Nat) : Option (List V × List String) :=
  let image_vectors := env.image_vectors split
  let captions := (env.capLines split).map firstField
  if downsample ≠ 0 then
    let img_inds := perm.take downsample
    let cap_inds := (img_inds.map (fun x => List.range' (x * 5) 5)).flatten
    match npIndex image_vectors img_inds, npIndex captions cap_inds with
    | some iv, some cs => some (npRepeat5 iv, cs)
    | _, _ => none
  else
    some (npRepeat5 image_vectors, captions)

structure DataEnv (V : Type) where
  coco : CocoEnv V
  m30k : M30KEnv V

/-- `load_data` (lines 161–178): dispatch on the dataset name, overriding
`downsample` to 5000 for the coco validation split; any other name raises
`NotImplementedError`. -/
def load_data {V : Type} (env : DataEnv V) (perm : List Nat) (name split : String)
    ( lang_prefix : Bool) (downsample : Nat) : Except PyError (List V × List String) :=
  if name = "coconumpy" then
    let ds := if split = "val" then 5000 else downsample
    match read_coco env.coco split lang_prefix ds perm with
    | some r => .ok r
    | none => .error .indexError
  else if name = "m30ken" then .ok (read_m30K env.m30k "en" split lang_prefix)
  else if name = "m30kde" then .ok (read_m30K env.m30k "de" split lang_prefix)
  else .error .notImplementedError

theorem npRepeat5_length {V : Type} (l : List V) : (npRepeat5 l).length = 5 * l.length := by
  induction l with
  | nil => rfl
  | cons x xs ih =>
    simp only [npRepeat5, List.map_cons, List.flatten_cons, List.length_append,
      List.length_replicate, List.length_cons] at ih ⊢
    omega

theorem npIndex_of_lt {α : Type} (l : List α) :
    ∀ inds : List Nat, (∀ i ∈ inds, i < l.length) →
      ∃ r, npIndex l inds = some r ∧ r.length = inds.length := by
  intro inds
  induction inds with
  | nil => exact fun _ => ⟨[], rfl, rfl⟩
  | cons i is ih =>
    intro h
    obtain ⟨r, hr, hlen⟩ := ih (fun j hj => h j (List.mem_cons_of_mem i hj))
    have hi : i < l.length := h i (List.mem_cons_self i is)
    refine ⟨l.get ⟨i, hi⟩ :: r, ?_, by simp [hlen]⟩
    simp [npIndex, List.getElem?_eq_getElem hi, hr, List.get_eq_getElem]

theorem npIndex_append {α : Type} (l : List α) :
    ∀ (as bs : List Nat) (ra rb : List α),
      npIndex l as = some ra → npIndex l bs = some rb →
      npIndex l (as ++ bs) = some (ra ++ rb) := by
  intro as
  induction as with
  | nil =>
    intro bs ra rb ha hb
    simp only [npIndex] at ha
    cases ha
    simpa using hb
  | cons i is ih =>
    intro bs ra rb ha hb
    cases hg : l[i]? with
    | none => simp [npIndex, hg] at ha
    | some a =>
      cases hr : npIndex l is with
      | none => simp [npIndex, hg, hr] at ha
      | some r =>
        simp only [npIndex, hg, hr] at ha
        cases ha
        have hrec := ih bs r rb hr hb
        simp [npIndex, hg, hrec]

theorem npIndex_range' {α : Type} (l : List α) :
    ∀ (m s : Nat), s + m ≤ l.length →
      npIndex l (List.range' s m) = some ((l.drop s).take m) := by
  intro m
  induction m with
  | zero => intro s h; simp [npIndex]
  | succ m ih =>
    intro s h
    have hs : s < l.length := by omega
    rw [List.range'_succ]
    have hrec := ih (s + 1) (by omega)
    rw [List.drop_eq_getElem_cons hs, List.take_succ_cons]
    simp [npIndex, List.getElem?_eq_getElem hs, hrec]

theorem npIndex_blocks {α : Type} (l : List α) :
    ∀ inds : List Nat, (∀ x ∈ inds, x * 5 + 5 ≤ l.length) →
      npIndex l ((inds.map (fun x => List.range' (x * 5) 5)).flatten)
        = some ((inds.map (fun x => (l.drop (x * 5)).take 5)).flatten) := by
  intro inds
  induction inds with
  | nil => simp [npIndex]
  | cons x xs ih =>
    intro h
    have hx : x * 5 + 5 ≤ l.length := h x (List.mem_cons_self x xs)
    have h1 : npIndex l (List.range' (x * 5) 5) = some ((l.drop (x * 5)).take 5) :=
      npIndex_range' l 5 (x * 5) hx
    have h2 := ih (fun y hy => h y (List.mem_cons_of_mem x hy))
    rw [List.map_cons, List.flatten_cons, List.map_cons, List.flatten_cons]
    exact npIndex_append l _ _ _ _ h1 h2

theorem flatten_map_length {β α : Type} (g : β → List α) :
    ∀ inds : List β, (∀ x ∈ inds, (g x).length = 5) →
      ((inds.map g).flatten).length = 5 * inds.length := by
  intro inds
  induction inds with
  | nil => intro; rfl
  | cons x xs ih =>
    intro h
    have hx := h x (List.mem_cons_self x xs)
    have h2 := ih (fun y hy => h y (List.mem_cons_of_mem x hy))
    simp only [List.map_cons, List.flatten_cons, List.length_append, List.length_cons, hx, h2]
    omega

/-- **C10.** When `read_coco` is called with a positive `downsample = k`
(with `k ≤ n - 1` for `n` image vectors, and a caption file with one line
per caption, i.e. `5 * n` lines): it succeeds, the kept image indices are
the first `k` entries of the shuffled `np.arange(n - 1)` — distinct and
all `< n - 1`, so the last image vector is never kept — the returned
images are the kept vectors each repeated five times (`5 * k` images), and
the returned captions are exactly the caption blocks `x*5 … x*5+4` of the
kept indices `x`, concatenated in the same order as the kept images
(`5 * k` captions). -/
theorem c10_read_coco {V : Type} (env : CocoEnv V) (split : String) ( lang_prefix : Bool)
    (k : Nat) (perm : List Nat)
    (hk : 0 < k)
    (hperm : List.Perm perm (List.range ((env.image_vectors split).length - 1)))
    (hkn : k ≤ (env.image_vectors split).length - 1)
    (hcap : (env.capLines split).length = 5 * (env.image_vectors split).length) :
    ∃ iv : List V,
      npIndex (env.image_vectors split) (perm.take k) = some iv ∧
      read_coco env split lang_prefix k perm
        = some (npRepeat5 iv,
            ((perm.take k).map (fun x =>
              (((env.capLines split).map firstField).drop (x * 5)).take 5)).flatten) ∧
      iv.length = k ∧
      (npRepeat5 iv).length = 5 * k ∧
      (((perm.take k).map (fun x =>
          (((env.capLines split).map firstField).drop (x * 5)).take 5)).flatten).length
        = 5 * k ∧
      (perm.take k).Nodup ∧
      (∀ x ∈ perm.take k, x < (env.image_vectors split).length - 1) ∧
      ((env.image_vectors split).length - 1) ∉ perm.take k := by
  set n := (env.image_vectors split).length with hn
  have hmem : ∀ x ∈ perm.take k, x < n - 1 := by
    intro x hx
    have hx2 : x ∈ perm := List.mem_of_mem_take hx
    have := hperm.mem_iff.mp hx2
    exact List.mem_range.mp this
  have htklen : (perm.take k).length = k := by
    rw [List.length_take, hperm.length_eq, List.length_range]
    omega
  obtain ⟨iv, hiv, hivlen⟩ := npIndex_of_lt (env.image_vectors split) (perm.take k)
    (fun i hi => by have := hmem i hi; omega)
  have hcaplen : ((env.capLines split).map firstField).length = 5 * n := by
    rw [List.length_map, hcap]
  have hblocks : npIndex ((env.capLines split).map firstField)
      (((perm.take k).map (fun x => List.range' (x * 5) 5)).flatten)
      = some (((perm.take k).map (fun x =>
          (((env.capLines split).map firstField).drop (x * 5)).take 5)).flatten) := by
    refine npIndex_blocks _ _ (fun x hx => ?_)
    rw [hcaplen]
    have := hmem x hx
    omega
  have hbl : ∀ x ∈ perm.take k,
      ((((env.capLines split).map firstField).drop (x * 5)).take 5).length = 5 := by
    intro x hx
    rw [List.length_take, List.length_drop, hcaplen]
    have := hmem x hx
    omega
  refine ⟨iv, hiv, ?_, by omega, ?_, ?_, ?_, hmem, ?_⟩
  · rw [read_coco]
    simp only [if_pos (Nat.pos_iff_ne_zero.mp hk)]
    rw [hiv, hblocks]
  · rw [npRepeat5_length]; omega
  · rw [flatten_map_length _ _ hbl, htklen]
  · have hnd : perm.Nodup := hperm.nodup_iff.mpr (List.nodup_range _)
    exact hnd.sublist (List.take_sublist k perm)
  · intro hcon
    have := hmem _ hcon
    omega

def envW : CocoEnv Nat :=
  ⟨fun _ => [10, 20, 30],
   fun _ => ["a0", "a1", "a2", "a3", "a4", "b0", "b1", "b2", "b3", "b4",
             "c0", "c1", "c2", "c3", "c4"]⟩

theorem c10_read_coco_witness :
    read_coco envW "train" false 1 [1, 0]
      = some (npRepeat5 [20],
          (([1, 0].take 1).map (fun x =>
            (((envW.capLines "train").map firstField).drop (x * 5)).take 5)).flatten) := by
  obtain ⟨iv, h1, h2, -⟩ := c10_read_coco envW "train" false 1 [1, 0]
    (by decide) (by decide) (by decide) (by decide)
  have h3 : some iv = some [20] := h1.symm.trans (by decide)
  cases h3
  exact h2

/-- A two-image Multi30K environment in the task-2 layout: caption file
`i` holds, line by line, the `i`-th caption of each image, so the five
captions describing image 0 are `a0, b0, c0, d0, e0` and those describing
image 1 are `a1, b1, c1, d1, e1`. -/
def envM : M30KEnv Nat :=
  ⟨fun _ => [100, 200],
   fun _ _ i =>
     if i = 1 then ["a0", "a1"]
     else if i = 2 then ["b0", "b1"]
     else if i = 3 then ["c0", "c1"]
     else if i = 4 then ["d0", "d1"]
     else ["e0", "e1"]⟩

/-- **C4 (failing case).** `read_m30K` concatenates the five caption files
file-by-file while `np.repeat` blocks the images five-by-five, so the
captions at positions `5*i … 5*i+4` are not the five captions describing
image `i`: on a two-image environment the first image's block of five
positions carries the captions `a0, a1, b0, b1, c0`, among them `a1` — a
caption of image 1, not one of image 0's five captions — even though the
image and caption sequences do have equal length. -/
theorem c4_read_m30K_misaligned :
    (read_m30K envM "en" "train" false).1 = [100, 100, 100, 100, 100, 200, 200, 200, 200, 200] ∧
    (read_m30K envM "en" "train" false).2
      = ["a0", "a1", "b0", "b1", "c0", "c1", "d0", "d1", "e0", "e1"] ∧
    (read_m30K envM "en" "train" false).2.take 5 = ["a0", "a1", "b0", "b1", "c0"] ∧
    "a1" ∉ ["a0", "b0", "c0", "d0", "e0"] ∧
    (read_m30K envM "en" "train" false).1.length = (read_m30K envM "en" "train" false).2.length := by
  decide

/-- **C9.** `load_data` raises `NotImplementedError` exactly when the
dataset name is none of `coconumpy`, `m30ken`, `m30kde`; and for
`coconumpy` with split `val` the caller-supplied `downsample` is
overridden to 5000 before reading, so the result does not depend on it and
equals the result of `read_coco` at downsample 5000. -/
theorem c9_load_data {V : Type} (env : DataEnv V) (perm : List Nat) (name split : String)
    ( lang_prefix : Bool) (downsample : Nat) :
    (load_data env perm name split lang_prefix downsample
        = .error PyError.notImplementedError
      ↔ name ∉ ["coconumpy", "m30ken", "m30kde"]) ∧
    (∀ d1 d2 : Nat,
      load_data env perm "coconumpy" "val" lang_prefix d1
        = load_data env perm "coconumpy" "val" lang_prefix d2) ∧
    (load_data env perm "coconumpy" "val" lang_prefix downsample
      = match read_coco env.coco "val" lang_prefix 5000 perm with
        | some r => .ok r
        | none => .error PyError.indexError) := by
  refine ⟨?_, fun d1 d2 => rfl, rfl⟩
  by_cases h1 : name = "coconumpy"
  · subst h1
    simp only [load_data, if_pos rfl]
    constructor
    · intro h
      cases hrc : read_coco env.coco split lang_prefix
          (if split = "val" then 5000 else downsample) perm with
      | none => rw [hrc] at h; cases h
      | some r => rw [hrc] at h; cases h
    · intro h
      exact absurd (List.mem_cons_self _ _) h
  · by_cases h2 : name = "m30ken"
    · subst h2
      simp only [load_data]
      constructor
      · intro h; cases h
      · intro h
        exact absurd (List.mem_cons_of_mem _ (List.mem_cons_self _ _)) h
    · by_cases h3 : name = "m30kde"
      · subst h3
        simp only [load_data]
        constructor
        · intro h; cases h
        · intro h
          exact absurd
            (List.mem_cons_of_mem _ (List.mem_cons_of_mem _ (List.mem_cons_self _ _))) h
      · simp only [load_data, if_neg h1, if_neg h2, if_neg h3]
        constructor
        · intro _
          intro hmem
          rcases List.mem_cons.mp hmem with h | hmem
          · exact h1 h
          rcases List.mem_cons.mp hmem with h | hmem
          · exact h2 h
          rcases List.mem_cons.mp hmem with h | hmem
          · exact h3 h
          · exact List.not_mem_nil name hmem
        · intro _; trivial
